import Mathlib

/-!
Verification development for the jsonlite JSON-to-metric parser
(src/plugins/parsers/jsonlite/parser.go).

The Go code is shallowly embedded as executable Lean definitions:

* JSON values decoded by encoding/json into a Go interface value are the
  inductive type JSONValue; Go maps (map from string keys) are association
  lists with unique keys maintained by mapInsert; Go slices of metrics are
  Option (List Metric) so that the nil slice (none) stays distinct from an
  allocated empty slice (some []).
* Fallible Go functions returning (T, error) become Except String T; the
  flattener, which mutates its receiver through a pointer even on the error
  path, returns the pair (new state, optional error).
* float64 values decoded from JSON number literals are modelled as rationals
  (a JSON numeric literal denotes a rational; the claims under study only
  exercise small integers, which float64 represents exactly).
* byte buffers are lists of characters; the two structural bytes inspected
  by the dispatcher and the whitespace bytes trimmed by it are single-byte
  UTF-8 code points, so first-occurrence comparisons on characters agree
  with the byte-level comparisons done by the Go code.
-/

namespace Jsonlite

/-- Character constant for the opening curly bracket (byte 0x7b). -/
def lbraceChar : Char := Char.ofNat 123

/-- Character constant for the closing curly bracket (byte 0x7d). -/
def rbraceChar : Char := Char.ofNat 125

/-- Lookup in a Go map modelled as an association list (first match wins;
the lists built by mapInsert have unique keys). -/
def mapLookup {α : Type} : List (String × α) → String → Option α
  | [], _ => none
  | (k', v') :: rest, k => if k' = k then some v' else mapLookup rest k

/-- Go map assignment: replace the value of an existing key in place, or
append a new binding at the end. -/
def mapInsert {α : Type} : List (String × α) → String → α → List (String × α)
  | [], k, v => [(k, v)]
  | (k', v') :: rest, k, v =>
    if k' = k then (k, v) :: rest else (k', v') :: mapInsert rest k v

/-- Go map deletion: remove every binding of the key (at most one exists in
the key-unique lists built by mapInsert). -/
def mapDelete {α : Type} : List (String × α) → String → List (String × α)
  | [], _ => []
  | (k', v') :: rest, k =>
    if k' = k then mapDelete rest k else (k', v') :: mapDelete rest k

/-- Go append on a possibly-nil slice: append(s, x) treats the nil slice as
empty and always yields a non-nil slice. -/
def goAppend {α : Type} (s : Option (List α)) (x : α) : Option (List α) :=
  some (s.getD [] ++ [x])

/-- A JSON value as decoded by encoding/json into a Go interface value:
object, array, number (float64), string, boolean or null.  The extra
constructor other stands for a Go value of any dynamic type outside these
six; the JSON decoder never produces one, but the type switch in
FullFlattenJSON has a default branch for exactly this case, so the
embedding keeps it representable. -/
inductive JSONValue where
  | obj (kvs : List (String × JSONValue))
  | arr (elems : List JSONValue)
  | num (t : ℚ)
  | str (s : String)
  | bool (b : Bool)
  | null
  | other (ty : String)

/-- A value stored in a metric field mapping: float64, string or bool. -/
inductive FieldValue where
  | num (t : ℚ)
  | str (s : String)
  | bool (b : Bool)
deriving DecidableEq, Repr

/-- One telegraf metric as assembled by the parser: name, tag mapping,
field mapping (Option distinguishes a nil Go map from an empty one) and
capture timestamp. -/
structure Metric where
  name : String
  tags : List (String × String)
  fields : Option (List (String × FieldValue))
  time : Nat
deriving DecidableEq, Repr

/-- The JSONLiteParser configuration struct. -/
structure JSONLiteParser where
  MetricName : String
  TagKeys : List String
  DefaultTags : List (String × String)

/-- The JSONFlattener struct: the accumulated field mapping (none models a
nil Go map) and the configured tag keys. -/
structure JSONFlattener where
  Fields : Option (List (String × FieldValue))
  TagKeys : List String
deriving DecidableEq, Repr

/-- Model of strings.Trim(s, underscore): strip leading and trailing
underscore characters. -/
def trimUnderscores (s : String) : String :=
  ⟨((s.toList.dropWhile (fun c => c = '_')).reverse.dropWhile (fun c => c = '_')).reverse⟩

/-- Model of strings.Split(s, underscore): split at every underscore; the
result is never empty (the empty string splits to one empty segment). -/
def splitOnUnderscore : List Char → List (List Char)
  | [] => [[]]
  | c :: rest =>
    match splitOnUnderscore rest with
    | [] => [[]]
    | w :: ws => if c = '_' then [] :: w :: ws else (c :: w) :: ws

/-- The final underscore-delimited segment of a path, as computed by
elts[len(elts)-1] after strings.Split. -/
def lastSegment (s : String) : String :=
  ⟨(splitOnUnderscore s.toList).getLastD []⟩

/-- The source file's contains helper on string slices. -/
def contains (a : List String) (s : String) : Bool :=
  a.any (fun x => x = s)

/-- Digit characters for decimal formatting. -/
def digitChar (d : Nat) : Char := Char.ofNat (48 + d)

/-- Decimal digits of a natural number, least significant first, with fuel. -/
def natDigitsRev (fuel n : Nat) : List Char :=
  match fuel with
  | 0 => []
  | fuel + 1 =>
    if n < 10 then [digitChar n]
    else digitChar (n % 10) :: natDigitsRev fuel (n / 10)

/-- Decimal string of a natural number (model of strconv.Itoa on
non-negative values). -/
def natToStr (n : Nat) : String := ⟨(natDigitsRev (n + 1) n).reverse⟩

/-- Model of strconv.FormatBool. -/
def formatBool (b : Bool) : String := if b then "true" else "false"

/-- Exact decimal digits of the fraction num/den (num < den), emitted most
significant first, stopping when the remainder is zero; fuel bounds the
expansion.  For the values float64 can hold the expansion is finite. -/
def fracDigits (fuel : Nat) (num den : Nat) : List Char :=
  match fuel with
  | 0 => []
  | fuel + 1 =>
    if num = 0 then []
    else digitChar (num * 10 / den) :: fracDigits fuel (num * 10 % den) den

/-- Model of strconv.FormatFloat(v, f-format, -1, 64): the shortest decimal
string denoting the value.  For integral values this is the plain decimal
integer; for other values the model emits the exact finite decimal
expansion of the rational, which for decimal-literal-decoded values
coincides with the shortest form Go prints. -/
def formatFloat (q : ℚ) : String :=
  let sign : String := if q.num < 0 then "-" else ""
  let ip : Nat := q.num.natAbs / q.den
  let fr : Nat := q.num.natAbs % q.den
  if fr = 0 then sign ++ natToStr ip
  else sign ++ natToStr ip ++ "." ++ (⟨fracDigits 1100 fr q.den⟩ : String)

/-- Modelled from the spec: the metric constructor metric.New of the
telegraf metric package, which is code of this repository not under src/.
Spec section 4.2 step 3 and section 7: metric construction can fail when
the assembled name/tags/fields break the validation rules of the metric
representation, for example an empty measurement name; otherwise it yields
a metric carrying exactly the given name, tags, fields and capture time.
The model enforces the one validation rule the spec names concretely, the
non-empty measurement name. -/
def metricNew (name : String) (tags : List (String × String))
    (fields : Option (List (String × FieldValue))) (time : Nat) :
    Except String Metric :=
  if name = "" then Except.error "missing measurement name"
  else Except.ok { name := name, tags := tags, fields := fields, time := time }

mutual

/-- The flattener core FullFlattenJSON.  It returns the updated flattener
state paired with an optional error; the Go method mutates its receiver
through a pointer, so state changes survive the error path too.  Note two
behaviours taken verbatim from the source: the slice case checks the error
of the recursive call but returns nil (no error) when one occurred, and
leaves of type number/string/bool are kept in basic mode only when the
trimmed path's final underscore segment is one of the configured tag keys. -/
def JSONFlattener.FullFlattenJSON (f : JSONFlattener) (fieldname : String)
    (v : JSONValue) (convertString convertBool : Bool) :
    JSONFlattener × Option String :=
  let f := { f with Fields := some (f.Fields.getD []) }
  let fieldname := trimUnderscores fieldname
  let tagFieldKey := lastSegment fieldname
  match v with
  | .obj kvs => JSONFlattener.flattenMembers f fieldname kvs convertString convertBool
  | .arr elems => JSONFlattener.flattenElements f fieldname 0 elems convertString convertBool
  | .num t =>
    if contains f.TagKeys tagFieldKey then
      ({ f with Fields := some (mapInsert (f.Fields.getD []) fieldname (.num t)) }, none)
    else (f, none)
  | .str s =>
    if convertString then
      ({ f with Fields := some (mapInsert (f.Fields.getD []) fieldname (.str s)) }, none)
    else if contains f.TagKeys tagFieldKey then
      ({ f with Fields := some (mapInsert (f.Fields.getD []) fieldname (.str s)) }, none)
    else (f, none)
  | .bool b =>
    if convertBool then
      ({ f with Fields := some (mapInsert (f.Fields.getD []) fieldname (.bool b)) }, none)
    else if contains f.TagKeys tagFieldKey then
      ({ f with Fields := some (mapInsert (f.Fields.getD []) fieldname (.bool b)) }, none)
    else (f, none)
  | .null => (f, none)
  | .other ty =>
    (f, some ("JSON Flattener: got unexpected type " ++ ty ++ " (" ++ fieldname ++ ")"))

/-- The range loop of the map case of FullFlattenJSON: recurse on each
key with path fieldname_key_, aborting with the error of a failed
recursive call. -/
def JSONFlattener.flattenMembers (f : JSONFlattener) (fieldname : String)
    (kvs : List (String × JSONValue)) (convertString convertBool : Bool) :
    JSONFlattener × Option String :=
  match kvs with
  | [] => (f, none)
  | (k, v) :: rest =>
    match JSONFlattener.FullFlattenJSON f (fieldname ++ "_" ++ k ++ "_") v convertString convertBool with
    | (f', some e) => (f', some e)
    | (f', none) => JSONFlattener.flattenMembers f' fieldname rest convertString convertBool

/-- The range loop of the slice case of FullFlattenJSON: recurse on each
element with the decimal index as synthetic key.  The source checks the
recursive call's error but then returns nil, so a failed element ends the
walk with no reported error. -/
def JSONFlattener.flattenElements (f : JSONFlattener) (fieldname : String)
    (i : Nat) (elems : List JSONValue) (convertString convertBool : Bool) :
    JSONFlattener × Option String :=
  match elems with
  | [] => (f, none)
  | v :: rest =>
    match JSONFlattener.FullFlattenJSON f (fieldname ++ "_" ++ natToStr i ++ "_") v convertString convertBool with
    | (f', some _) => (f', none)
    | (f', none) => JSONFlattener.flattenElements f' fieldname (i + 1) rest convertString convertBool

end

/-- FlattenJSON: initialize a nil field map and run the full flattener with
string and bool conversion disabled (basic mode). -/
def JSONFlattener.FlattenJSON (f : JSONFlattener) (fieldname : String)
    (v : JSONValue) : JSONFlattener × Option String :=
  let f := { f with Fields := some (f.Fields.getD []) }
  JSONFlattener.FullFlattenJSON f fieldname v false false

/-- Whitespace as recognized by bytes.TrimSpace (Go unicode.IsSpace); the
ASCII space characters plus the next line and no-break space code points.
The remaining Unicode space code points are multi-byte and outside the
byte-buffer inputs this development exercises. -/
def goIsSpace (c : Char) : Bool :=
  c = ' ' || c = '\t' || c = '\n' || c = '\x0b' || c = '\x0c' || c = '\r' ||
  c = '\u0085' || c = '\u00A0'

/-- Model of bytes.TrimSpace: drop whitespace from both ends. -/
def trimSpace (buf : List Char) : List Char :=
  ((buf.dropWhile goIsSpace).reverse.dropWhile goIsSpace).reverse

/-- Index of the first occurrence of a character, if any. -/
def firstIndex : List Char → Char → Option Nat
  | [], _ => none
  | c :: rest, b =>
    if c = b then some 0 else (firstIndex rest b).map (fun i => i + 1)

/-- Model of bytes.IndexByte: first index of the byte, or -1 if absent. -/
def indexByte (buf : List Char) (b : Char) : Int :=
  match firstIndex buf b with
  | some i => (i : Int)
  | none => -1

/-- The isarray heuristic of the source: true exactly when the index of the
first opening square bracket is non-negative and strictly smaller than the
index (-1 when absent) of the first opening curly bracket. -/
def isarray (buf : List Char) : Bool :=
  let ia := indexByte buf '['
  let ib := indexByte buf lbraceChar
  if ia > -1 && ia < ib then true else false

/-- JSON interchange whitespace skipped by the decoder. -/
def isJSONSpace (c : Char) : Bool :=
  c = ' ' || c = '\t' || c = '\n' || c = '\r'

/-- Skip JSON whitespace. -/
def skipWs (s : List Char) : List Char := s.dropWhile isJSONSpace

/-- Decimal digit test. -/
def isDigit (c : Char) : Bool := '0' ≤ c && c ≤ '9'

/-- Value of a list of decimal digit characters. -/
def digitsToNat (ds : List Char) : Nat :=
  ds.foldl (fun n c => 10 * n + (c.toNat - 48)) 0

/-- Scan a JSON number: optional minus sign, integer digits, optional
fractional digits.  (Exponent forms are outside the model; no claim
exercises them.) -/
def scanNumber (s : List Char) : Option (JSONValue × List Char) :=
  let neg : Bool := match s with | '-' :: _ => true | _ => false
  let s1 := match s with | '-' :: r => r | _ => s
  let ds := s1.takeWhile isDigit
  let s2 := s1.dropWhile isDigit
  if ds.isEmpty then none
  else
    match s2 with
    | '.' :: r =>
      let fs := r.takeWhile isDigit
      let s3 := r.dropWhile isDigit
      if fs.isEmpty then none
      else
        let q : ℚ := (digitsToNat ds : ℚ) + (digitsToNat fs : ℚ) / ((10 : ℚ) ^ fs.length)
        some (.num (if neg then -q else q), s3)
    | _ =>
      let q : ℚ := (digitsToNat ds : ℚ)
      some (.num (if neg then -q else q), s2)

/-- Scan the body of a JSON string after the opening quote, up to the
closing quote.  (Escape sequences are outside the model; no claim
exercises them.) -/
def scanStringBody : List Char → Option (List Char × List Char)
  | [] => none
  | c :: rest =>
    if c = '"' then some ([], rest)
    else if c = '\\' then none
    else
      match scanStringBody rest with
      | some (cs, r) => some (c :: cs, r)
      | none => none

mutual

/-- Fuel-indexed recursive-descent model of the encoding/json value
grammar, producing the generic interface representation: objects become
key-unique association lists (duplicate keys: last one wins, as for Go
maps), arrays become lists, numbers float64-as-rational, plus strings,
booleans and null. -/
def decodeValue : Nat → List Char → Option (JSONValue × List Char)
  | 0, _ => none
  | fuel + 1, s =>
    match skipWs s with
    | [] => none
    | c :: rest =>
      if c = lbraceChar then
        match skipWs rest with
        | c2 :: r2 =>
          if c2 = rbraceChar then some (.obj [], r2)
          else decodeMembers fuel (c2 :: r2) []
        | [] => none
      else if c = '[' then
        match skipWs rest with
        | ']' :: r2 => some (.arr [], r2)
        | r2 => decodeElements fuel r2 []
      else if c = '"' then
        match scanStringBody rest with
        | some (cs, r) => some (.str ⟨cs⟩, r)
        | none => none
      else
        match c :: rest with
        | 't' :: 'r' :: 'u' :: 'e' :: r => some (.bool true, r)
        | 'f' :: 'a' :: 'l' :: 's' :: 'e' :: r => some (.bool false, r)
        | 'n' :: 'u' :: 'l' :: 'l' :: r => some (.null, r)
        | s' => scanNumber s'

/-- Members of a JSON object after the opening brace (non-empty object). -/
def decodeMembers : Nat → List Char → List (String × JSONValue) →
    Option (JSONValue × List Char)
  | 0, _, _ => none
  | fuel + 1, s, acc =>
    match skipWs s with
    | '"' :: rest =>
      match scanStringBody rest with
      | some (cs, r) =>
        match skipWs r with
        | ':' :: r2 =>
          match decodeValue fuel r2 with
          | some (v, r3) =>
            match skipWs r3 with
            | ',' :: r4 => decodeMembers fuel r4 (mapInsert acc ⟨cs⟩ v)
            | c5 :: r4 =>
              if c5 = rbraceChar then some (.obj (mapInsert acc ⟨cs⟩ v), r4)
              else none
            | [] => none
          | none => none
        | _ => none
      | none => none
    | _ => none

/-- Elements of a JSON array after the opening bracket (non-empty array). -/
def decodeElements : Nat → List Char → List JSONValue →
    Option (JSONValue × List Char)
  | 0, _, _ => none
  | fuel + 1, s, acc =>
    match decodeValue fuel s with
    | some (v, r) =>
      match skipWs r with
      | ',' :: r2 => decodeElements fuel r2 (acc ++ [v])
      | ']' :: r2 => some (.arr (acc ++ [v]), r2)
      | _ => none
    | none => none

end

/-- Decode a complete JSON document: one value followed only by
whitespace. -/
def decode (s : List Char) : Option JSONValue :=
  match decodeValue (2 * s.length + 2) s with
  | some (v, rest) => if skipWs rest = [] then some v else none
  | none => none

/-- Model of json.Unmarshal into a Go map from string to interface: the
document must be an object (or the literal null, which leaves the target
map nil, behaving as empty downstream); anything else is a type error. -/
def unmarshalMap (s : List Char) : Option (List (String × JSONValue)) :=
  match decode s with
  | some (.obj kvs) => some kvs
  | some .null => some []
  | _ => none

/-- Model of json.Unmarshal into a Go slice of maps: the document must be
an array whose elements are objects (or null, giving a nil element map), or
the literal null, giving a nil slice that iterates as empty. -/
def unmarshalArrayOfMaps (s : List Char) :
    Option (List (List (String × JSONValue))) :=
  match decode s with
  | some (.arr elems) =>
    elems.mapM (fun v =>
      match v with
      | .obj kvs => some kvs
      | .null => some []
      | _ => none)
  | some .null => some []
  | _ => none

/-- The tag-extraction loop of parseObject: starting from the default tags,
look up each configured tag key at the top level of the object; a string,
boolean or float64 value is formatted and stored as a tag, any other value
(or an absent key) adds no tag; in every case the key is then deleted from
the object. -/
def extractTags (tagKeys : List String) (tags : List (String × String))
    (jsonOut : List (String × JSONValue)) :
    List (String × String) × List (String × JSONValue) :=
  match tagKeys with
  | [] => (tags, jsonOut)
  | tag :: rest =>
    let tags' :=
      match mapLookup jsonOut tag with
      | some (.str v) => mapInsert tags tag v
      | some (.bool v) => mapInsert tags tag (formatBool v)
      | some (.num v) => mapInsert tags tag (formatFloat v)
      | _ => tags
    extractTags rest tags' (mapDelete jsonOut tag)

/-- parseObject: build the tag set (defaults, then extraction with
unconditional key deletion), flatten the remaining object in basic mode,
construct one metric stamped with the ambient capture time, and append it
to the accumulating slice. -/
def JSONLiteParser.parseObject (p : JSONLiteParser) (now : Nat)
    (metrics : Option (List Metric)) (jsonOut : List (String × JSONValue)) :
    Except String (Option (List Metric)) :=
  match JSONFlattener.FlattenJSON { Fields := none, TagKeys := p.TagKeys } ""
      (JSONValue.obj (extractTags p.TagKeys p.DefaultTags jsonOut).2) with
  | (_, some err) => Except.error err
  | (f, none) =>
    match metricNew p.MetricName (extractTags p.TagKeys p.DefaultTags jsonOut).1
        f.Fields now with
    | Except.error err => Except.error err
    | Except.ok m => Except.ok (goAppend metrics m)

/-- The range loop of parseArray: feed each decoded element to parseObject,
reassigning the slice-and-error pair each time.  An element error makes the
accumulated slice the nil slice of parseObject's error return, and the
error itself is dropped (the loop ends with return metrics, nil). -/
def JSONLiteParser.parseArrayLoop (p : JSONLiteParser) (now : Nat)
    (metrics : Option (List Metric)) :
    List (List (String × JSONValue)) → Option (List Metric)
  | [] => metrics
  | item :: rest =>
    match p.parseObject now metrics item with
    | Except.ok ms => p.parseArrayLoop now ms rest
    | Except.error _ => p.parseArrayLoop now none rest

/-- parseArray: unmarshal the buffer as an array of objects (decode failure
is wrapped and fatal), then run the element loop; whatever the loop leaves
in the slice is returned with a nil error. -/
def JSONLiteParser.parseArray (p : JSONLiteParser) (now : Nat)
    (buf : List Char) : Except String (Option (List Metric)) :=
  match unmarshalArrayOfMaps buf with
  | none => Except.error "unable to parse out as JSON Array, invalid syntax"
  | some items => Except.ok (p.parseArrayLoop now (some []) items)

/-- Parse: trim surrounding whitespace; an empty buffer yields a fresh
empty slice and no error; otherwise dispatch on the isarray heuristic to
the single-object path or the array path. -/
def JSONLiteParser.Parse (p : JSONLiteParser) (now : Nat) (buf : List Char) :
    Except String (Option (List Metric)) :=
  if (trimSpace buf).length = 0 then Except.ok (some [])
  else if !(isarray (trimSpace buf)) then
    match unmarshalMap (trimSpace buf) with
    | none => Except.error "unable to parse out as JSON, invalid syntax"
    | some jsonOut => p.parseObject now (some []) jsonOut
  else p.parseArray now (trimSpace buf)

/-- ParseLine: append a newline, run Parse, fail on a Parse error or on an
empty result, and otherwise return the first metric. -/
def JSONLiteParser.ParseLine (p : JSONLiteParser) (now : Nat) (line : String) :
    Except String Metric :=
  match p.Parse now (line ++ "\n").toList with
  | Except.error e => Except.error e
  | Except.ok metrics =>
    match metrics.getD [] with
    | [] => Except.error ("Can not parse the line: " ++ line ++ ", for data format: influx ")
    | m :: _ => Except.ok m

/-- SetDefaultTags stores the given mapping as the default tag set. -/
def JSONLiteParser.SetDefaultTags (p : JSONLiteParser)
    (tags : List (String × String)) : JSONLiteParser :=
  { p with DefaultTags := tags }

/-- A scalar JSON leaf (number, string or boolean) together with the field
value the flattener would store for it. -/
def scalarVal : JSONValue → Option FieldValue
  | .num t => some (.num t)
  | .str s => some (.str s)
  | .bool b => some (.bool b)
  | _ => none

/-- A top-level value for which the tag-extraction switch of parseObject
adds no tag: an absent key, or a value that is not a string, boolean or
number. -/
def tagValueSkipped : Option JSONValue → Prop
  | some (.str _) => False
  | some (.bool _) => False
  | some (.num _) => False
  | _ => True

/-- metricNew succeeds on any non-empty name and stores its arguments
verbatim. -/
theorem metricNew_ok (name : String) (tags : List (String × String))
    (fields : Option (List (String × FieldValue))) (time : Nat)
    (h : name ≠ "") :
    metricNew name tags fields time =
      Except.ok { name := name, tags := tags, fields := fields, time := time } := by
  simp [metricNew, h]

/-- Inserting at one key leaves lookups of other keys unchanged. -/
theorem mapLookup_mapInsert_ne {α : Type} (m : List (String × α))
    (k k' : String) (v : α) (h : k' ≠ k) :
    mapLookup (mapInsert m k v) k' = mapLookup m k' := by
  induction m with
  | nil => simp [mapInsert, mapLookup, Ne.symm h]
  | cons kv rest ih =>
    obtain ⟨k2, v2⟩ := kv
    by_cases hk : k2 = k
    · subst hk
      simp [mapInsert, mapLookup, Ne.symm h]
    · simp only [mapInsert, hk, if_false, mapLookup]
      by_cases hk' : k2 = k'
      · simp [hk']
      · simp [hk', ih]

/-- Deleting a key removes it from lookups. -/
theorem mapLookup_mapDelete_self {α : Type} (m : List (String × α))
    (k : String) : mapLookup (mapDelete m k) k = none := by
  induction m with
  | nil => rfl
  | cons kv rest ih =>
    obtain ⟨k2, v2⟩ := kv
    by_cases hk : k2 = k
    · simp [mapDelete, hk, ih]
    · simp [mapDelete, hk, mapLookup, ih]

/-- Deleting one key leaves lookups of other keys unchanged. -/
theorem mapLookup_mapDelete_ne {α : Type} (m : List (String × α))
    (k k' : String) (h : k' ≠ k) :
    mapLookup (mapDelete m k) k' = mapLookup m k' := by
  induction m with
  | nil => rfl
  | cons kv rest ih =>
    obtain ⟨k2, v2⟩ := kv
    by_cases hk : k2 = k
    · subst hk
      simp [mapDelete, mapLookup, Ne.symm h, ih]
    · simp only [mapDelete, hk, if_false, mapLookup]
      by_cases hk' : k2 = k'
      · simp [hk']
      · simp [hk', ih]

/-- Deletion preserves the absence of a key. -/
theorem mapLookup_mapDelete_none {α : Type} (m : List (String × α))
    (k k' : String) (h : mapLookup m k' = none) :
    mapLookup (mapDelete m k) k' = none := by
  by_cases hk : k' = k
  · subst hk; exact mapLookup_mapDelete_self m k'
  · rw [mapLookup_mapDelete_ne m k k' hk]; exact h

/-- The extraction loop never reintroduces a key that is absent from the
object. -/
theorem extractTags_obj_absent (tagKeys : List String)
    (tags : List (String × String)) (obj : List (String × JSONValue))
    (tag : String) (h : mapLookup obj tag = none) :
    mapLookup (extractTags tagKeys tags obj).2 tag = none := by
  induction tagKeys generalizing tags obj with
  | nil => exact h
  | cons t rest ih =>
    unfold extractTags
    exact ih _ _ (mapLookup_mapDelete_none _ _ _ h)

/-- Every configured tag key is deleted from the object by the extraction
loop, whatever the type of its value. -/
theorem extractTags_deletes_key (tagKeys : List String)
    (tags : List (String × String)) (obj : List (String × JSONValue))
    (tag : String) (h : tag ∈ tagKeys) :
    mapLookup (extractTags tagKeys tags obj).2 tag = none := by
  induction tagKeys generalizing tags obj with
  | nil => cases h
  | cons t rest ih =>
    unfold extractTags
    rcases List.mem_cons.mp h with heq | hmem
    · subst heq
      exact extractTags_obj_absent _ _ _ _ (mapLookup_mapDelete_self _ _)
    · exact ih _ _ hmem

/-- When the value of a tag key is skipped by the extraction switch, the
loop leaves the tag mapping at that key untouched. -/
theorem extractTags_tags_unchanged (tagKeys : List String)
    (tags : List (String × String)) (obj : List (String × JSONValue))
    (tag : String) (h : tagValueSkipped (mapLookup obj tag)) :
    mapLookup (extractTags tagKeys tags obj).1 tag = mapLookup tags tag := by
  induction tagKeys generalizing tags obj with
  | nil => rfl
  | cons t rest ih =>
    unfold extractTags
    by_cases ht : t = tag
    · subst ht
      have hrec : tagValueSkipped (mapLookup (mapDelete obj t) t) := by
        rw [mapLookup_mapDelete_self]; trivial
      cases hv : mapLookup obj t with
      | none => simp only [hv]; exact ih _ _ hrec
      | some v =>
        rw [hv] at h
        cases v with
        | str s => exact absurd h (by simp [tagValueSkipped])
        | bool b => exact absurd h (by simp [tagValueSkipped])
        | num q => exact absurd h (by simp [tagValueSkipped])
        | obj kvs => simp only [hv]; exact ih _ _ hrec
        | arr elems => simp only [hv]; exact ih _ _ hrec
        | null => simp only [hv]; exact ih _ _ hrec
        | other ty => simp only [hv]; exact ih _ _ hrec
    · have hrec : tagValueSkipped (mapLookup (mapDelete obj t) tag) := by
        rw [mapLookup_mapDelete_ne obj t tag (Ne.symm ht)]; exact h
      have hins : ∀ v : String,
          mapLookup (mapInsert tags t v) tag = mapLookup tags tag :=
        fun v => mapLookup_mapInsert_ne tags t tag v (Ne.symm ht)
      cases hv : mapLookup obj t with
      | none => simp only [hv]; rw [ih _ _ hrec]
      | some v =>
        cases v with
        | str s => simp only [hv]; rw [ih _ _ hrec]; exact hins _
        | bool b => simp only [hv]; rw [ih _ _ hrec]; exact hins _
        | num q => simp only [hv]; rw [ih _ _ hrec]; exact hins _
        | obj kvs => simp only [hv]; rw [ih _ _ hrec]
        | arr elems => simp only [hv]; rw [ih _ _ hrec]
        | null => simp only [hv]; rw [ih _ _ hrec]
        | other ty => simp only [hv]; rw [ih _ _ hrec]

mutual

/-- After any run of FullFlattenJSON the field map of the resulting state
is present (some), never the nil map. -/
theorem fullFlatten_fields_isSome (f : JSONFlattener) (fieldname : String)
    (v : JSONValue) (convertString convertBool : Bool) :
    ((JSONFlattener.FullFlattenJSON f fieldname v convertString convertBool).1).Fields.isSome = true := by
  unfold JSONFlattener.FullFlattenJSON
  cases v with
  | obj kvs => exact flattenMembers_fields_isSome _ _ _ _ _ rfl
  | arr elems => exact flattenElements_fields_isSome _ _ _ _ _ _ rfl
  | num t => dsimp only; split <;> rfl
  | str s => dsimp only; split <;> [rfl; (split <;> rfl)]
  | bool b => dsimp only; split <;> [rfl; (split <;> rfl)]
  | null => rfl
  | other ty => rfl

/-- Member-loop version of fullFlatten_fields_isSome: the loop preserves
presence of the field map. -/
theorem flattenMembers_fields_isSome (f : JSONFlattener) (fieldname : String)
    (kvs : List (String × JSONValue)) (convertString convertBool : Bool)
    (h : f.Fields.isSome = true) :
    ((JSONFlattener.flattenMembers f fieldname kvs convertString convertBool).1).Fields.isSome = true := by
  unfold JSONFlattener.flattenMembers
  cases kvs with
  | nil => exact h
  | cons kv rest =>
    obtain ⟨k, v⟩ := kv
    dsimp only
    cases hc : JSONFlattener.FullFlattenJSON f (fieldname ++ "_" ++ k ++ "_") v convertString convertBool with
    | mk f' e =>
      have h' := fullFlatten_fields_isSome f (fieldname ++ "_" ++ k ++ "_") v convertString convertBool
      rw [hc] at h'
      cases e with
      | none =>
        dsimp only
        exact flattenMembers_fields_isSome f' fieldname rest convertString convertBool h'
      | some err => exact h'

/-- Element-loop version of fullFlatten_fields_isSome: the loop preserves
presence of the field map. -/
theorem flattenElements_fields_isSome (f : JSONFlattener) (fieldname : String)
    (i : Nat) (elems : List JSONValue) (convertString convertBool : Bool)
    (h : f.Fields.isSome = true) :
    ((JSONFlattener.flattenElements f fieldname i elems convertString convertBool).1).Fields.isSome = true := by
  unfold JSONFlattener.flattenElements
  cases elems with
  | nil => exact h
  | cons v rest =>
    dsimp only
    cases hc : JSONFlattener.FullFlattenJSON f (fieldname ++ "_" ++ natToStr i ++ "_") v convertString convertBool with
    | mk f' e =>
      have h' := fullFlatten_fields_isSome f (fieldname ++ "_" ++ natToStr i ++ "_") v convertString convertBool
      rw [hc] at h'
      cases e with
      | none =>
        dsimp only
        exact flattenElements_fields_isSome f' fieldname (i + 1) rest convertString convertBool h'
      | some err => exact h'

end

/-- A buffer of whitespace characters trims to the empty buffer. -/
theorem trimSpace_all_space (buf : List Char)
    (h : ∀ c ∈ buf, goIsSpace c = true) : trimSpace buf = [] := by
  unfold trimSpace
  have h1 : buf.dropWhile goIsSpace = [] := by
    induction buf with
    | nil => rfl
    | cons c rest ih =>
      rw [List.dropWhile_cons]
      rw [h c (List.mem_cons_self c rest)]
      exact ih (fun c' hc' => h c' (List.mem_cons_of_mem c hc'))
  rw [h1]
  rfl

/-- parseObject in the successful case: with a non-empty metric name and a
clean flattener run, it appends exactly one metric built from the extracted
tags and the flattened fields. -/
theorem parseObject_reduces (p : JSONLiteParser) (now : Nat)
    (acc : Option (List Metric)) (obj : List (String × JSONValue))
    (fields : Option (List (String × FieldValue)))
    (tags : List (String × String))
    (hflat : JSONFlattener.FlattenJSON { Fields := none, TagKeys := p.TagKeys } ""
        (JSONValue.obj (extractTags p.TagKeys p.DefaultTags obj).2)
      = ({ Fields := fields, TagKeys := p.TagKeys }, none))
    (hext : (extractTags p.TagKeys p.DefaultTags obj).1 = tags)
    (hname : p.MetricName ≠ "") :
    p.parseObject now acc obj =
      Except.ok (goAppend acc { name := p.MetricName, tags := tags, fields := fields, time := now }) := by
  unfold JSONLiteParser.parseObject
  rw [hflat]
  dsimp only
  rw [hext, metricNew_ok _ _ _ _ hname]

/-- Every metric coming out of a successful parseObject call is either one
of the already-accumulated metrics or carries a present field mapping. -/
theorem parseObject_fields (p : JSONLiteParser) (now : Nat)
    (acc : Option (List Metric)) (obj : List (String × JSONValue))
    (ms : Option (List Metric))
    (h : p.parseObject now acc obj = Except.ok ms) :
    ∀ m ∈ ms.getD [], m ∈ acc.getD [] ∨ m.fields.isSome = true := by
  unfold JSONLiteParser.parseObject at h
  split at h
  · exact absurd h (by simp)
  · rename_i f heq
    split at h
    · exact absurd h (by simp)
    · rename_i m' hmn
      have hms : ms = goAppend acc m' := by
        injection h with h'
        exact h'.symm
      subst hms
      intro m hm
      unfold goAppend at hm
      rcases (by simpa using hm : m ∈ acc.getD [] ∨ m = m') with hmem | hmem
      · exact Or.inl hmem
      · right
        subst hmem
        have hfields : m.fields = f.Fields := by
          unfold metricNew at hmn
          split at hmn
          · exact absurd hmn (by simp)
          · injection hmn with h2
            rw [← h2]
        rw [hfields]
        have hsome := fullFlatten_fields_isSome
          { Fields := some (Option.getD none []), TagKeys := p.TagKeys } ""
          (JSONValue.obj (extractTags p.TagKeys p.DefaultTags obj).2) false false
        unfold JSONFlattener.FlattenJSON at heq
        rw [heq] at hsome
        exact hsome

/-- The parseArray element loop preserves the field-presence invariant of
the accumulated metrics. -/
theorem parseArrayLoop_fields (p : JSONLiteParser) (now : Nat)
    (items : List (List (String × JSONValue))) :
    ∀ acc, (∀ m ∈ acc.getD [], m.fields.isSome = true) →
    ∀ m ∈ (p.parseArrayLoop now acc items).getD [], m.fields.isSome = true := by
  induction items with
  | nil =>
    intro acc hacc
    unfold JSONLiteParser.parseArrayLoop
    exact hacc
  | cons item rest ih =>
    intro acc hacc
    unfold JSONLiteParser.parseArrayLoop
    cases hpo : p.parseObject now acc item with
    | ok ms =>
      refine ih ms (fun m hm => ?_)
      rcases parseObject_fields p now acc item ms hpo m hm with hmem | hsome
      · exact hacc m hmem
      · exact hsome
    | error e =>
      refine ih none (fun m hm => ?_)
      simp at hm

/-- C1 (corrected): the isarray heuristic treats the buffer as a JSON array
exactly when a first occurrence of the opening square bracket exists AND a
first occurrence of the opening curly bracket exists AND the former is
strictly earlier; a buffer containing a square bracket but no curly bracket
is dispatched to the single-object path, not the array path. -/
theorem C1_amended (buf : List Char) :
    isarray buf = true ↔
      ∃ i j, firstIndex buf '[' = some i ∧ firstIndex buf lbraceChar = some j ∧ i < j := by
  have hb : ∀ b : Bool, (if b = true then true else false) = b := by decide
  unfold isarray indexByte
  cases h1 : firstIndex buf '[' <;> cases h2 : firstIndex buf lbraceChar <;>
      dsimp only <;> simp only [hb, Bool.and_eq_true, decide_eq_true_eq] <;> simp <;> omega

/-- C1 counterexample: the buffer [1] contains an opening square bracket
(at index 0) and no opening curly bracket, yet isarray classifies it as a
non-array, and Parse routes it to the single-object path where it fails
with the object-path decode error. -/
theorem C1_counterexample :
    firstIndex ("[1]".toList) '[' = some 0 ∧
    firstIndex ("[1]".toList) lbraceChar = none ∧
    isarray ("[1]".toList) = false ∧
    JSONLiteParser.Parse { MetricName := "m", TagKeys := [], DefaultTags := [] } 0 ("[1]".toList) =
      Except.error "unable to parse out as JSON, invalid syntax" :=
  ⟨rfl, rfl, rfl, rfl⟩

/-- C2 (corrected): for every configured tag key whose top-level value is
skipped by the tag switch (a map, an array, null, or an absent key), the
extraction loop leaves the tag mapping at that key exactly as the default
tags had it, and it deletes the key from the object unconditionally, so the
value does NOT remain in the object handed to the flattener. -/
theorem C2_amended (tagKeys : List String) (tags : List (String × String))
    (obj : List (String × JSONValue)) (tag : String)
    (hmem : tag ∈ tagKeys) (h : tagValueSkipped (mapLookup obj tag)) :
    mapLookup (extractTags tagKeys tags obj).1 tag = mapLookup tags tag ∧
    mapLookup (extractTags tagKeys tags obj).2 tag = none :=
  ⟨extractTags_tags_unchanged tagKeys tags obj tag h,
   extractTags_deletes_key tagKeys tags obj tag hmem⟩

/-- C2 witness: concrete instance of C2_amended for tag key a with a map
value. -/
theorem C2_amended_witness :
    mapLookup (extractTags ["a"] [] [("a", JSONValue.obj [("b", JSONValue.num 1)])]).1 "a" = mapLookup [] "a" ∧
    mapLookup (extractTags ["a"] [] [("a", JSONValue.obj [("b", JSONValue.num 1)])]).2 "a" = none :=
  C2_amended ["a"] [] [("a", JSONValue.obj [("b", JSONValue.num 1)])] "a"
    (List.mem_cons_self "a" []) (by trivial)

/-- C2 counterexample: with tag keys [a] and input object a maps to the
object b maps to 1, the claim says key a is skipped for tags but its value
remains in the object handed to the flattener (so a_b could become a
field); in fact extraction deletes the key (lookup after extraction is none,
not the original map value), and the end-to-end parse yields an empty field
mapping instead of a field a_b. -/
theorem C2_counterexample :
    mapLookup (extractTags ["a"] [] [("a", JSONValue.obj [("b", JSONValue.num 1)])]).2 "a" = none ∧
    ¬ mapLookup (extractTags ["a"] [] [("a", JSONValue.obj [("b", JSONValue.num 1)])]).2 "a"
        = some (JSONValue.obj [("b", JSONValue.num 1)]) ∧
    JSONLiteParser.Parse { MetricName := "m", TagKeys := ["a"], DefaultTags := [] } 0
      ("\x7b\"a\":\x7b\"b\":1\x7d\x7d".toList) =
      Except.ok (some [{ name := "m", tags := [], fields := some [], time := 0 }]) := by
  refine ⟨rfl, ?_, rfl⟩
  intro hc
  rw [show mapLookup (extractTags ["a"] [] [("a", JSONValue.obj [("b", JSONValue.num 1)])]).2 "a"
      = none from rfl] at hc
  exact Option.noConfusion hc

/-- C3 (code_bug): errors arising inside the parsing core are silently
discarded at two places, contradicting the propagation policy.  First, an
element of a successfully decoded array whose metric construction fails
(here: empty metric name) makes parseObject return an error, but Parse
still returns success (with the nil slice left by the failed element).
Second, when flattening a value nested inside a JSON array hits the
unexpected-leaf-type error, the array case checks the error and then
returns nil, so FullFlattenJSON reports no error. -/
theorem C3_swallowed_errors :
    JSONLiteParser.Parse { MetricName := "", TagKeys := ["x"], DefaultTags := [] } 0
      ("[\x7b\"x\":1\x7d]".toList) = Except.ok none ∧
    JSONLiteParser.parseObject { MetricName := "", TagKeys := ["x"], DefaultTags := [] } 0
      (some []) [("x", JSONValue.num 1)] = Except.error "missing measurement name" ∧
    (JSONFlattener.FullFlattenJSON { Fields := some [], TagKeys := [] } ""
      (JSONValue.arr [JSONValue.other "chan int"]) false false).2 = none ∧
    (JSONFlattener.FullFlattenJSON { Fields := some [], TagKeys := [] } ""
      (JSONValue.other "chan int") false false).2.isSome = true :=
  ⟨rfl, rfl, rfl, rfl⟩

/-- C4 (confirmed): in basic mode (both conversion flags false), a scalar
leaf (number, string or boolean) is kept in the field mapping, keyed by its
trimmed synthesized path, if and only if the final underscore-delimited
segment of that trimmed path is one of the configured tag keys; otherwise
the mapping is unchanged, and no error is reported either way. -/
theorem C4_basic_leaf_allowlist (fields : List (String × FieldValue))
    (tks : List String) (fn : String) (v : JSONValue) (val : FieldValue)
    (h : scalarVal v = some val) :
    JSONFlattener.FullFlattenJSON { Fields := some fields, TagKeys := tks } fn v false false =
      (if contains tks (lastSegment (trimUnderscores fn)) then
        ({ Fields := some (mapInsert fields (trimUnderscores fn) val), TagKeys := tks }, none)
      else ({ Fields := some fields, TagKeys := tks }, none)) := by
  cases v with
  | num t =>
    have hv : val = FieldValue.num t := by
      simp only [scalarVal, Option.some.injEq] at h
      exact h.symm
    subst hv
    rfl
  | str s2 =>
    have hv : val = FieldValue.str s2 := by
      simp only [scalarVal, Option.some.injEq] at h
      exact h.symm
    subst hv
    rfl
  | bool b =>
    have hv : val = FieldValue.bool b := by
      simp only [scalarVal, Option.some.injEq] at h
      exact h.symm
    subst hv
    rfl
  | obj kvs => simp [scalarVal] at h
  | arr elems => simp [scalarVal] at h
  | null => simp [scalarVal] at h
  | other ty => simp [scalarVal] at h

/-- C4 witness: a numeric leaf at path _nested_count_ with tag keys [count]
is kept as field nested_count. -/
theorem C4_witness :
    JSONFlattener.FullFlattenJSON { Fields := some [], TagKeys := ["count"] }
      "_nested_count_" (JSONValue.num 5) false false =
      ({ Fields := some [("nested_count", FieldValue.num 5)], TagKeys := ["count"] }, none) := by
  rw [C4_basic_leaf_allowlist [] ["count"] "_nested_count_" (JSONValue.num 5) (FieldValue.num 5) rfl]
  rfl

/-- C5 (confirmed for every non-empty metric name; the spec-modelled metric
constructor rejects an empty name): parsing the object nested maps-to
(count maps-to 5) with tag keys [count] yields exactly one metric whose
field mapping is the single entry nested_count = 5 (a number), with no
tags: the path is underscore-joined, trimmed, and its terminal segment
count matches the allow-list. -/
theorem C5_nested_count (name : String) (h : name ≠ "") :
    JSONLiteParser.Parse { MetricName := name, TagKeys := ["count"], DefaultTags := [] } 0
      ("\x7b\"nested\": \x7b\"count\": 5\x7d\x7d".toList) =
      Except.ok (some [⟨name, [], some [("nested_count", FieldValue.num 5)], 0⟩]) := by
  have h0 : JSONLiteParser.Parse { MetricName := name, TagKeys := ["count"], DefaultTags := [] } 0
      ("\x7b\"nested\": \x7b\"count\": 5\x7d\x7d".toList)
      = JSONLiteParser.parseObject { MetricName := name, TagKeys := ["count"], DefaultTags := [] } 0
          (some []) [("nested", JSONValue.obj [("count", JSONValue.num 5)])] := rfl
  rw [h0, parseObject_reduces { MetricName := name, TagKeys := ["count"], DefaultTags := [] } 0
    (some []) [("nested", JSONValue.obj [("count", JSONValue.num 5)])]
    (some [("nested_count", FieldValue.num 5)]) [] rfl rfl h]
  rfl

/-- C5 witness: the same parse with the concrete metric name m. -/
theorem C5_witness :
    JSONLiteParser.Parse { MetricName := "m", TagKeys := ["count"], DefaultTags := [] } 0
      ("\x7b\"nested\": \x7b\"count\": 5\x7d\x7d".toList) =
      Except.ok (some [⟨"m", [], some [("nested_count", FieldValue.num 5)], 0⟩]) :=
  C5_nested_count "m" (by decide)

/-- C6 (confirmed for every non-empty metric name; the spec-modelled metric
constructor rejects an empty name): parsing the array of the two objects
x maps-to 1 and x maps-to 2 with tag keys [x] yields exactly two metrics in
input order, the first tagged x = 1 and the second x = 2 (numbers formatted
in minimal decimal form), both with an empty but present field mapping,
because each x is extracted and deleted at its element top level before
flattening. -/
theorem C6_array_two_metrics (name : String) (h : name ≠ "") :
    JSONLiteParser.Parse { MetricName := name, TagKeys := ["x"], DefaultTags := [] } 0
      ("[\x7b\"x\":1\x7d,\x7b\"x\":2\x7d]".toList) =
      Except.ok (some [⟨name, [("x", "1")], some [], 0⟩,
        ⟨name, [("x", "2")], some [], 0⟩]) := by
  have h0 : JSONLiteParser.Parse { MetricName := name, TagKeys := ["x"], DefaultTags := [] } 0
      ("[\x7b\"x\":1\x7d,\x7b\"x\":2\x7d]".toList)
      = Except.ok (JSONLiteParser.parseArrayLoop
          { MetricName := name, TagKeys := ["x"], DefaultTags := [] } 0 (some [])
          [[("x", JSONValue.num 1)], [("x", JSONValue.num 2)]]) := rfl
  have e1 : JSONLiteParser.parseObject { MetricName := name, TagKeys := ["x"], DefaultTags := [] } 0
      (some []) [("x", JSONValue.num 1)]
      = Except.ok (some [⟨name, [("x", "1")], some [], 0⟩]) := by
    rw [parseObject_reduces { MetricName := name, TagKeys := ["x"], DefaultTags := [] } 0
      (some []) [("x", JSONValue.num 1)] (some []) [("x", "1")] rfl rfl h]
    rfl
  have e2 : JSONLiteParser.parseObject { MetricName := name, TagKeys := ["x"], DefaultTags := [] } 0
      (some [⟨name, [("x", "1")], some [], 0⟩])
      [("x", JSONValue.num 2)]
      = Except.ok (some [⟨name, [("x", "1")], some [], 0⟩,
          ⟨name, [("x", "2")], some [], 0⟩]) := by
    rw [parseObject_reduces { MetricName := name, TagKeys := ["x"], DefaultTags := [] } 0
      (some [⟨name, [("x", "1")], some [], 0⟩]) [("x", JSONValue.num 2)]
      (some []) [("x", "2")] rfl rfl h]
    rfl
  rw [h0]
  have hloop : JSONLiteParser.parseArrayLoop
      { MetricName := name, TagKeys := ["x"], DefaultTags := [] } 0 (some [])
      [[("x", JSONValue.num 1)], [("x", JSONValue.num 2)]]
      = some [⟨name, [("x", "1")], some [], 0⟩,
        ⟨name, [("x", "2")], some [], 0⟩] := by
    simp only [JSONLiteParser.parseArrayLoop, e1, e2]
  rw [hloop]

/-- C6 witness: the same parse with the concrete metric name m. -/
theorem C6_witness :
    JSONLiteParser.Parse { MetricName := "m", TagKeys := ["x"], DefaultTags := [] } 0
      ("[\x7b\"x\":1\x7d,\x7b\"x\":2\x7d]".toList) =
      Except.ok (some [⟨"m", [("x", "1")], some [], 0⟩,
        ⟨"m", [("x", "2")], some [], 0⟩]) :=
  C6_array_two_metrics "m" (by decide)

/-- C7 (confirmed): a zero-length buffer, or one consisting only of
whitespace, parses to a present (non-nil) empty metric slice with no
error. -/
theorem C7_whitespace_empty (p : JSONLiteParser) (now : Nat) (buf : List Char)
    (h : ∀ c ∈ buf, goIsSpace c = true) :
    p.Parse now buf = Except.ok (some []) := by
  have ht : trimSpace buf = [] := trimSpace_all_space buf h
  unfold JSONLiteParser.Parse
  rw [ht]
  rfl

/-- C7 witness: a buffer of a space, a tab and a newline. -/
theorem C7_witness :
    JSONLiteParser.Parse { MetricName := "m", TagKeys := [], DefaultTags := [] } 0
      (" \t\n".toList) = Except.ok (some []) :=
  C7_whitespace_empty { MetricName := "m", TagKeys := [], DefaultTags := [] } 0
    (" \t\n".toList) (by decide)

/-- C8 (confirmed): every metric produced by a successful Parse call
carries a present (non-nil) field mapping, because the flattener
initializes its accumulator before any classification. -/
theorem C8_fields_present (p : JSONLiteParser) (now : Nat) (buf : List Char)
    (ms : Option (List Metric)) (h : p.Parse now buf = Except.ok ms) :
    ∀ m ∈ ms.getD [], m.fields.isSome = true := by
  unfold JSONLiteParser.Parse at h
  split at h
  · have hms : ms = some [] := by
      injection h with h'
      exact h'.symm
    subst hms
    intro m hm
    simp at hm
  · split at h
    · split at h
      · exact absurd h (by simp)
      · rename_i jsonOut hun
        intro m hm
        rcases parseObject_fields p now (some []) jsonOut ms h m hm with hmem | hsome
        · simp at hmem
        · exact hsome
    · unfold JSONLiteParser.parseArray at h
      split at h
      · exact absurd h (by simp)
      · rename_i items hun
        have hms : ms = p.parseArrayLoop now (some []) items := by
          injection h with h'
          exact h'.symm
        subst hms
        exact parseArrayLoop_fields p now items (some []) (by simp)

/-- C8 witness: the metric produced for the object a maps-to the string v
has a present (empty) field mapping. -/
theorem C8_witness :
    (⟨"m", [("a", "v")], some [], 0⟩ : Metric).fields.isSome = true :=
  C8_fields_present { MetricName := "m", TagKeys := ["a"], DefaultTags := [] } 0
    ("\x7b\"a\":\"v\"\x7d".toList)
    (some [⟨"m", [("a", "v")], some [], 0⟩]) rfl
    ⟨"m", [("a", "v")], some [], 0⟩ (by simp)

/-- C9 (confirmed): the flattener is deterministic; it is a pure function
of the JSON value, the tag-key list, the mode flags and the starting state,
so two invocations from identical configurations yield identical results,
with no dependence on time or any state outside the arguments (the
embedding of the flattener is a pure function by construction). -/
theorem C9_flatten_deterministic (v : JSONValue) (tks : List String)
    (fn : String) (convertString convertBool : Bool) (f g : JSONFlattener)
    (hf : f = { Fields := none, TagKeys := tks })
    (hg : g = { Fields := none, TagKeys := tks }) :
    JSONFlattener.FullFlattenJSON f fn v convertString convertBool =
      JSONFlattener.FullFlattenJSON g fn v convertString convertBool := by
  rw [hf, hg]

/-- C9 witness: two runs on the same one-key object agree. -/
theorem C9_witness :
    JSONFlattener.FullFlattenJSON { Fields := none, TagKeys := ["a"] } ""
      (JSONValue.obj [("a", JSONValue.num 1)]) false false =
    JSONFlattener.FullFlattenJSON { Fields := none, TagKeys := ["a"] } ""
      (JSONValue.obj [("a", JSONValue.num 1)]) false false :=
  C9_flatten_deterministic (JSONValue.obj [("a", JSONValue.num 1)]) ["a"] ""
    false false _ _ rfl rfl

/-- C10 (confirmed): ParseLine appends a newline and runs Parse; a Parse
error is propagated verbatim, a parse yielding zero metrics produces the
cannot-parse error, and otherwise exactly the first metric is returned and
any further metrics are discarded. -/
theorem C10_parseLine (p : JSONLiteParser) (now : Nat) (line : String) :
    (∀ e, p.Parse now (line ++ "\n").toList = Except.error e →
      p.ParseLine now line = Except.error e) ∧
    (∀ ms, p.Parse now (line ++ "\n").toList = Except.ok ms → ms.getD [] = [] →
      p.ParseLine now line =
        Except.error ("Can not parse the line: " ++ line ++ ", for data format: influx ")) ∧
    (∀ ms m rest, p.Parse now (line ++ "\n").toList = Except.ok ms →
      ms.getD [] = m :: rest → p.ParseLine now line = Except.ok m) := by
  refine ⟨?_, ?_, ?_⟩
  · intro e he
    unfold JSONLiteParser.ParseLine
    rw [he]
  · intro ms hok hnil
    unfold JSONLiteParser.ParseLine
    rw [hok]
    dsimp only
    rw [hnil]
  · intro ms m rest hok hcons
    unfold JSONLiteParser.ParseLine
    rw [hok]
    dsimp only
    rw [hcons]

/-- C10 witness: for the line consisting of the object a maps-to 1, with no
tag keys, ParseLine returns the single parsed metric. -/
theorem C10_witness :
    JSONLiteParser.ParseLine { MetricName := "m", TagKeys := [], DefaultTags := [] } 0
      "\x7b\"a\":1\x7d" = Except.ok ⟨"m", [], some [], 0⟩ :=
  (C10_parseLine { MetricName := "m", TagKeys := [], DefaultTags := [] } 0
      "\x7b\"a\":1\x7d").2.2
    (some [⟨"m", [], some [], 0⟩])
    ⟨"m", [], some [], 0⟩ [] rfl rfl

end Jsonlite
